import Mathlib

/-!
Verification of the server-side rendering plugin (`handlSSR` and its helpers).

Strings are modelled as `List Char`.  JavaScript's `String.prototype.replace`
is modelled faithfully, including the substitution patterns that ECMAScript's
GetSubstitution applies to a string replacement value: `$$`, `$&` (the matched
substring), a dollar followed by a backquote (the text before the match) and
a dollar followed by a quote (the text after the match).  With a string search
value the pattern list is empty, so `$n` stays literal.
-/

set_option maxRecDepth 100000

namespace Zhuye

/-- ECMAScript GetSubstitution for a replacement string with no capture
groups: `matched` is the matched substring, `before` the part of the subject
before the match, `after` the part after it. -/
def getSubstitution (matched before after : List Char) : List Char → List Char
  | [] => []
  | [c] => [c]
  | c :: d :: rest =>
    if c = '$' then
      if d = '$' then '$' :: getSubstitution matched before after rest
      else if d = '&' then matched ++ getSubstitution matched before after rest
      else if d = Char.ofNat 96 then before ++ getSubstitution matched before after rest
      else if d = Char.ofNat 39 then after ++ getSubstitution matched before after rest
      else '$' :: getSubstitution matched before after (d :: rest)
    else c :: getSubstitution matched before after (d :: rest)

/-- When `p` is a prefix of `s`, the remainder of `s` after it. -/
def dropPre (p s : List Char) : Option (List Char) :=
  if p <+: s then some (s.drop p.length) else none

/-- Split `s` at the first occurrence of `p`: returns the part before the
occurrence and the part after it.  `none` when `p` does not occur. -/
def firstSplit (p : List Char) : List Char → Option (List Char × List Char)
  | [] => if p = [] then some ([], []) else none
  | c :: cs =>
    match dropPre p (c :: cs) with
    | some u => some ([], u)
    | none => (firstSplit p cs).map (fun ab => (c :: ab.1, ab.2))

/-- JavaScript `s.replace(p, r)` with a string search value: replace the
first occurrence of `p` by the substitution expansion of `r`. -/
def jsReplace (p r s : List Char) : List Char :=
  match firstSplit p s with
  | some (a, b) => a ++ getSubstitution p a b r ++ b
  | none => s

/-- JavaScript `s.replace(/</g, "\\u003c")`: every literal less-than sign in
the serialized state is replaced by its Unicode escape form. -/
def escapeLt : List Char → List Char
  | [] => []
  | c :: cs => if c = '<' then ("\\u003c").data ++ escapeLt cs else c :: escapeLt cs

/-- JavaScript `c.replace(, "")` on the leading-slash anchored pattern:
drops one leading slash if present. -/
def stripLeadingSlash : List Char → List Char
  | [] => []
  | c :: cs => if c = '/' then cs else c :: cs

def titleOpenTag : List Char := ("<title>").data
def titleCloseTag : List Char := ("</title>").data

/-- Index (inside the scanned remainder) of the start of the first
`</title>` that is reachable by the lazy `.*?` of the title pattern: the
scan fails at a line terminator, since `.` does not match one. -/
def findCloseIdx : List Char → Option Nat
  | [] => none
  | c :: cs =>
    if titleCloseTag <+: (c :: cs) then some 0
    else if c = Char.ofNat 10 ∨ c = Char.ofNat 13 then none
    else (findCloseIdx cs).map (· + 1)

/-- First match of the title pattern in `s`, as
(text before the match, title contents, text after the match). -/
def titleSplit : List Char → Option (List Char × List Char × List Char)
  | [] => none
  | c :: cs =>
    match dropPre titleOpenTag (c :: cs) with
    | some u =>
        match findCloseIdx u with
        | some i => some ([], u.take i, u.drop (i + 8))
        | none => (titleSplit cs).map (fun x => (c :: x.1, x.2.1, x.2.2))
    | none => (titleSplit cs).map (fun x => (c :: x.1, x.2.1, x.2.2))

/-- Scanner for the global replace of the title pattern.  `pre` is the text
already consumed (needed by the substitution expansion of the replacement);
a positive skip count records how many characters of a match found earlier
still have to be consumed without being re-scanned or emitted. -/
def titleScan (T : List Char) : List Char → List Char → Nat → List Char
  | [], _, _ => []
  | c :: cs, pre, n + 1 => titleScan T cs (pre ++ [c]) n
  | c :: cs, pre, 0 =>
    match dropPre titleOpenTag (c :: cs) with
    | some u =>
        match findCloseIdx u with
        | some i =>
            getSubstitution (titleOpenTag ++ u.take i ++ titleCloseTag) pre
                (u.drop (i + 8)) T ++ titleScan T cs (pre ++ [c]) (i + 14)
        | none => c :: titleScan T cs (pre ++ [c]) 0
    | none => c :: titleScan T cs (pre ++ [c]) 0

/-- JavaScript `data.replace(title-pattern-global, T)`: every title element
is replaced by the substitution expansion of `T`. -/
def titleReplace (T s : List Char) : List Char :=
  titleScan T s [] 0

/-! ### The document assembler `injectHTML` -/

/-- The fragments handed to `injectHTML` by `handlSSR`. -/
structure Fragments where
  html : List Char
  title : List Char
  meta : List Char
  body : List Char
  scripts : List (List Char)
  styles : List Char
  state : List Char

def htmlOpenTag : List Char := ("<html>").data
def headCloseTag : List Char := ("</head>").data
def rootDivTag : List Char := ("<div id=\"root\"></div>").data
def bodyCloseTag : List Char := ("</body>").data
def stateOpen : List Char := ("<div id=\"root\">").data
def stateMid : List Char := ("</div><script>window.__PRELOADED_STATE__ = ").data
def statePost : List Char := ("</script>").data

/-- `data.replace("<html>", ...)` adding the root-tag attributes. -/
def step1 (fr : Fragments) (data : List Char) : List Char :=
  jsReplace htmlOpenTag (("<html ").data ++ fr.html ++ (">").data) data

/-- The global title-pattern replace. -/
def step2 (fr : Fragments) (data : List Char) : List Char :=
  titleReplace fr.title data

/-- `data.replace("</head>", ...)` inserting meta and styles. -/
def step3 (fr : Fragments) (data : List Char) : List Char :=
  jsReplace headCloseTag (fr.meta ++ fr.styles ++ headCloseTag) data

/-- `data.replace(root placeholder, ...)` inserting body and state. -/
def step4 (fr : Fragments) (data : List Char) : List Char :=
  jsReplace rootDivTag (stateOpen ++ fr.body ++ stateMid ++ fr.state ++ statePost) data

/-- `data.replace("</body>", scripts.join("") + "</body>")`. -/
def step5 (fr : Fragments) (data : List Char) : List Char :=
  jsReplace bodyCloseTag (fr.scripts.flatten ++ bodyCloseTag) data

/-- The `injectHTML` helper of `handlSSR`: the five substitutions in the
order the source performs them. -/
def injectHTML (data : List Char) (fr : Fragments) : List Char :=
  step5 fr (step4 fr (step3 fr (step2 fr (step1 fr data))))

/-! ### Asset selection -/

def dotJs : List Char := (".js").data

/-- `Object.keys` of the manifest, in its iteration order. -/
def objectKeys (assets : List (List Char × List Char)) : List (List Char) :=
  assets.map Prod.fst

/-- JavaScript property access `assets[k]` on the manifest object. -/
def objectGet (assets : List (List Char × List Char)) (k : List Char) : List Char :=
  (assets.lookup k).getD []

/-- The `extractAssets` helper: keep a manifest key when the touched module
list contains the key with its first occurrence of `.js` removed, and map
each kept key to its manifest value. -/
def extractAssets (assets : List (List Char × List Char)) (chunks : List (List Char)) :
    List (List Char) :=
  ((objectKeys assets).filter
    (fun asset => chunks.contains (jsReplace dotJs [] asset))).map
    (fun k => objectGet assets k)

/-- Formatting each selected asset into a script tag, with one leading slash
of the path stripped. -/
def scriptTagOf (c : List Char) : List Char :=
  ("<script type=\"text/javascript\" src=\"").data ++ stripLeadingSlash c ++
    ("\"></script>").data

/-- The `extraChunks` value of `handlSSR`. -/
def extraChunks (assets : List (List Char × List Char)) (chunks : List (List Char)) :
    List (List Char) :=
  (extractAssets assets chunks).map scriptTagOf

/-! ### Request-scoped state and the handler -/

/-- The current-user entry of the application state container. -/
inductive CurrentUser
  | loggedOut
  | user (value : List Char)
deriving DecidableEq

/-- Modelled from the spec: the auth module (`dist/src/modules/auth`, not
under `src/`) exports `setCurrentUser`, which populates the current-user
entry from the cookie's value. -/
def setCurrentUser (v : List Char) : CurrentUser :=
  CurrentUser.user v

/-- Modelled from the spec: the auth module's `logoutUser` explicitly marks
the state as logged out. -/
def logoutUser : CurrentUser :=
  CurrentUser.loggedOut

def authCookieName : List Char := ("mywebsite").data

/-- The two-branch state initializer of `handlSSR`: dispatch
`setCurrentUser` when the `mywebsite` cookie is present in the request's
cookie set, `logoutUser` otherwise. -/
def initCurrentUser (cookies : List (List Char × List Char)) : CurrentUser :=
  match cookies.lookup authCookieName with
  | some v => setCurrentUser v
  | none => logoutUser

/-- The outcome of the single rendering pass
(`frontloadServerRender` / `renderToString` plus the Helmet, styled-components
and Loadable side channels). -/
structure RenderResult where
  contextUrl : Option (List Char)
  markup : List Char
  modules : List (List Char)
  htmlAttributes : List Char
  title : List Char
  meta : List Char
  styles : List Char

/-- An HTTP response of the hapi handler: status code, optional Location
header, optional body. -/
structure Response where
  status : Nat
  location : Option (List Char)
  body : Option (List Char)
deriving DecidableEq

def notFoundResponse : Response :=
  { status := 404, location := none, body := none }

/-- The `handlSSR` handler.  The template read and the rendering pass are the
two fallible steps (modelled as `Except`); everything inside the `try` block
after a failure point is skipped, and the `catch` converts any failure into
the 404 response.  `stringify` stands for `JSON.stringify` applied to the
store's state, whose authentication part is the current-user entry. -/
def handlSSR (cookies : List (List Char × List Char))
    (htmlData : Except Unit (List Char))
    (render : Except Unit RenderResult)
    (manifest : List (List Char × List Char))
    (stringify : CurrentUser → List Char) : Response :=
  match htmlData with
  | Except.error _ => notFoundResponse
  | Except.ok data =>
    let st := initCurrentUser cookies
    match render with
    | Except.error _ => notFoundResponse
    | Except.ok r =>
      match r.contextUrl with
      | some url =>
          { status := 302, location := some url, body := some (("redirect...").data) }
      | none =>
          let extra := extraChunks manifest r.modules
          let html := injectHTML data
            { html := r.htmlAttributes, title := r.title, meta := r.meta,
              body := r.markup, scripts := extra, styles := r.styles,
              state := escapeLt (stringify st) }
          { status := 200, location := none, body := some html }

/-! ### Helper lemmas about the string primitives -/

theorem getSubstitution_of_not_mem (m b a : List Char) {r : List Char}
    (h : '$' ∉ r) : getSubstitution m b a r = r := by
  induction r with
  | nil => rfl
  | cons c rest ih =>
      have hc : c ≠ '$' := fun hc => h (hc ▸ List.mem_cons_self c rest)
      have hr : '$' ∉ rest := fun hr => h (List.mem_cons_of_mem c hr)
      cases rest with
      | nil => rfl
      | cons d rest2 =>
          simp only [getSubstitution, if_neg hc]
          exact congrArg (c :: ·) (ih hr)

theorem dropPre_eq_some {p s u : List Char} :
    dropPre p s = some u ↔ s = p ++ u := by
  constructor
  · intro h
    simp only [dropPre, Option.ite_none_right_eq_some, Option.some.injEq] at h
    obtain ⟨⟨t, ht⟩, hd⟩ := h
    rw [← hd, ← ht, List.drop_left]
  · intro h
    subst h
    simp [dropPre, List.prefix_append, List.drop_left]

theorem dropPre_eq_none {p s : List Char} :
    dropPre p s = none ↔ ¬ p <+: s := by
  simp [dropPre]

theorem firstSplit_eq_append {p s a b : List Char}
    (h : firstSplit p s = some (a, b)) : s = a ++ p ++ b := by
  induction s generalizing a b with
  | nil =>
      by_cases hp : p = ([] : List Char)
      · simp only [firstSplit, if_pos hp, Option.some_inj, Prod.mk.injEq] at h
        simp [hp, ← h.1, ← h.2]
      · simp [firstSplit, hp] at h
  | cons c cs ih =>
      cases hu : dropPre p (c :: cs) with
      | some u =>
          simp only [firstSplit, hu, Option.some_inj, Prod.mk.injEq] at h
          rw [← h.1, ← h.2]
          simpa using dropPre_eq_some.mp hu
      | none =>
          simp only [firstSplit, hu, Option.map_eq_some'] at h
          obtain ⟨⟨a', b'⟩, hfs, heq⟩ := h
          obtain ⟨ha, hb⟩ : c :: a' = a ∧ b' = b := by simpa using heq
          rw [← ha, ← hb]
          simpa using ih hfs

theorem firstSplit_eq_none_of_no_occurrence {p s : List Char}
    (h : ¬ p <:+: s) : firstSplit p s = none := by
  induction s with
  | nil =>
      have hp : p ≠ ([] : List Char) := fun hp => h (hp ▸ List.infix_refl [])
      simp [firstSplit, hp]
  | cons c cs ih =>
      have hnp : ¬ p <+: (c :: cs) := fun hc =>
        h (List.infix_cons_iff.mpr (Or.inl hc))
      have hni : ¬ p <:+: cs := fun hc => h (List.infix_cons_iff.mpr (Or.inr hc))
      simp only [firstSplit, dropPre_eq_none.mpr hnp, ih hni, Option.map_none']

theorem jsReplace_of_no_occurrence {p s : List Char} (r : List Char)
    (h : ¬ p <:+: s) : jsReplace p r s = s := by
  simp [jsReplace, firstSplit_eq_none_of_no_occurrence h]

theorem jsReplace_eq_of_firstSplit {p s a b : List Char} {r : List Char}
    (h : firstSplit p s = some (a, b)) (hr : '$' ∉ r) :
    jsReplace p r s = a ++ r ++ b := by
  simp [jsReplace, h, getSubstitution_of_not_mem _ _ _ hr]

theorem jsReplace_self {p : List Char} (s : List Char) (hp : '$' ∉ p) :
    jsReplace p p s = s := by
  cases h : firstSplit p s with
  | none => simp [jsReplace, h]
  | some ab =>
      obtain ⟨a, b⟩ := ab
      rw [jsReplace_eq_of_firstSplit h hp]
      exact (firstSplit_eq_append h).symm

theorem titleSplit_eq_none_of_no_open {s : List Char}
    (h : ¬ titleOpenTag <:+: s) : titleSplit s = none := by
  induction s with
  | nil => rfl
  | cons c cs ih =>
      have hnp : ¬ titleOpenTag <+: (c :: cs) := fun hc =>
        h (List.infix_cons_iff.mpr (Or.inl hc))
      have hni : ¬ titleOpenTag <:+: cs := fun hc =>
        h (List.infix_cons_iff.mpr (Or.inr hc))
      simp only [titleSplit, dropPre_eq_none.mpr hnp, ih hni, Option.map_none']

theorem titleScan_skip (T : List Char) : ∀ (s pre : List Char) (n : Nat),
    titleScan T s pre n = titleScan T (s.drop n) (pre ++ s.take n) 0 := by
  intro s
  induction s with
  | nil => intro pre n; simp [titleScan]
  | cons c cs ih =>
      intro pre n
      cases n with
      | zero => simp
      | succ m =>
          show titleScan T cs (pre ++ [c]) m = _
          rw [ih]
          simp

theorem findCloseIdx_take {u : List Char} {i : Nat} (h : findCloseIdx u = some i) :
    u.take (i + 8) = u.take i ++ titleCloseTag ∧ i + 8 ≤ u.length := by
  induction u generalizing i with
  | nil => simp [findCloseIdx] at h
  | cons c cs ih =>
      by_cases hp : titleCloseTag <+: (c :: cs)
      · simp only [findCloseIdx, if_pos hp, Option.some_inj] at h
        obtain ⟨t, ht⟩ := hp
        subst h
        have hcl : titleCloseTag.length = 8 := rfl
        constructor
        · rw [← ht, Nat.zero_add, List.take_left' hcl, List.take_zero, List.nil_append]
        · rw [← ht, List.length_append, hcl]
          omega
      · simp only [findCloseIdx, if_neg hp] at h
        by_cases hnl : c = Char.ofNat 10 ∨ c = Char.ofNat 13
        · simp [if_pos hnl] at h
        · simp only [if_neg hnl, Option.map_eq_some'] at h
          obtain ⟨j, hj, hij⟩ := h
          obtain ⟨h1, h2⟩ := ih hj
          subst hij
          constructor
          · have e1 : j + 1 + 8 = (j + 8) + 1 := by omega
            rw [e1, List.take_succ_cons, h1, List.take_succ_cons]
            rfl
          · simp only [List.length_cons]
            omega

theorem titleScan_match {s u : List Char} {i : Nat}
    (hu : dropPre titleOpenTag s = some u) (hf : findCloseIdx u = some i)
    (T pre : List Char) :
    titleScan T s pre 0 =
      getSubstitution (titleOpenTag ++ u.take i ++ titleCloseTag) pre
          (u.drop (i + 8)) T ++
        titleScan T (u.drop (i + 8))
          (pre ++ titleOpenTag ++ u.take i ++ titleCloseTag) 0 := by
  have hsu : s = titleOpenTag ++ u := dropPre_eq_some.mp hu
  cases s with
  | nil => simp [titleOpenTag] at hsu
  | cons c cs =>
      have hlen : titleOpenTag.length = 7 := rfl
      have hX : cs.drop (i + 14) = u.drop (i + 8) := by
        have e1 : (c :: cs).drop (i + 15) = cs.drop (i + 14) := by
          have : i + 15 = (i + 14) + 1 := by omega
          rw [this, List.drop_succ_cons]
        rw [← e1, hsu]
        have e2 : i + 15 = titleOpenTag.length + (i + 8) := by omega
        rw [e2, List.drop_append]
      have hP : (pre ++ [c]) ++ cs.take (i + 14) =
          pre ++ titleOpenTag ++ u.take i ++ titleCloseTag := by
        have e1 : (c :: cs).take (i + 15) = c :: cs.take (i + 14) := by
          have : i + 15 = (i + 14) + 1 := by omega
          rw [this, List.take_succ_cons]
        have e2 : (c :: cs).take (i + 15) = titleOpenTag ++ u.take (i + 8) := by
          rw [hsu]
          have e3 : i + 15 = titleOpenTag.length + (i + 8) := by omega
          rw [e3, List.take_append]
        have e4 : c :: cs.take (i + 14) = titleOpenTag ++ (u.take i ++ titleCloseTag) := by
          rw [← e1, e2, (findCloseIdx_take hf).1]
        simp [e4, List.append_assoc]
      simp only [titleScan, hu, hf]
      congr 1
      rw [titleScan_skip, hX, hP]

theorem titleScan_of_titleSplit_none (T : List Char) {s : List Char}
    (h : titleSplit s = none) : ∀ pre, titleScan T s pre 0 = s := by
  induction s with
  | nil => intro pre; rfl
  | cons c cs ih =>
      intro pre
      cases hu : dropPre titleOpenTag (c :: cs) with
      | some u =>
          cases hf : findCloseIdx u with
          | some i => simp [titleSplit, hu, hf] at h
          | none =>
              simp only [titleSplit, hu, hf, Option.map_eq_none'] at h
              simp only [titleScan, hu, hf]
              exact congrArg (c :: ·) (ih h _)
      | none =>
          simp only [titleSplit, hu, Option.map_eq_none'] at h
          simp only [titleScan, hu]
          exact congrArg (c :: ·) (ih h _)

theorem titleScan_of_titleSplit_some (T : List Char) {s a t b : List Char}
    (h : titleSplit s = some (a, t, b)) : ∀ pre,
    titleScan T s pre 0 =
      a ++ getSubstitution (titleOpenTag ++ t ++ titleCloseTag) (pre ++ a) b T ++
        titleScan T b (pre ++ a ++ titleOpenTag ++ t ++ titleCloseTag) 0 := by
  induction s generalizing a t b with
  | nil => simp [titleSplit] at h
  | cons c cs ih =>
      intro pre
      cases hu : dropPre titleOpenTag (c :: cs) with
      | some u =>
          cases hf : findCloseIdx u with
          | some i =>
              simp only [titleSplit, hu, hf, Option.some_inj, Prod.mk.injEq] at h
              obtain ⟨ha, htc, hb⟩ := h
              rw [titleScan_match hu hf T pre, ← ha, ← htc, ← hb]
              simp
          | none =>
              simp only [titleSplit, hu, hf, Option.map_eq_some'] at h
              obtain ⟨⟨a', t', b'⟩, hcs, heq⟩ := h
              obtain ⟨ha, htc, hb⟩ : c :: a' = a ∧ t' = t ∧ b' = b := by
                simpa using heq
              simp only [titleScan, hu, hf]
              rw [ih hcs, ← ha, ← htc, ← hb]
              simp
      | none =>
          simp only [titleSplit, hu, Option.map_eq_some'] at h
          obtain ⟨⟨a', t', b'⟩, hcs, heq⟩ := h
          obtain ⟨ha, htc, hb⟩ : c :: a' = a ∧ t' = t ∧ b' = b := by
            simpa using heq
          simp only [titleScan, hu]
          rw [ih hcs, ← ha, ← htc, ← hb]
          simp

theorem titleReplace_eq {s a t b : List Char} {T : List Char}
    (h : titleSplit s = some (a, t, b)) (hb : titleSplit b = none)
    (hT : '$' ∉ T) : titleReplace T s = a ++ T ++ b := by
  rw [titleReplace, titleScan_of_titleSplit_some T h []]
  rw [getSubstitution_of_not_mem _ _ _ hT, titleScan_of_titleSplit_none T hb]

theorem titleReplace_of_no_open (T : List Char) {s : List Char}
    (h : ¬ titleOpenTag <:+: s) : titleReplace T s = s :=
  titleScan_of_titleSplit_none T (titleSplit_eq_none_of_no_open h) []

theorem objectGet_cons_of_ne {k v k' : List Char}
    (rest : List (List Char × List Char)) (h : k' ≠ k) :
    objectGet ((k, v) :: rest) k' = objectGet rest k' := by
  have hb : (k' == k) = false := beq_eq_false_iff_ne.mpr h
  simp only [objectGet, List.lookup_cons, hb]

theorem not_mem_escapeLt (s : List Char) : '<' ∉ escapeLt s := by
  induction s with
  | nil => simp [escapeLt]
  | cons c cs ih =>
      by_cases hc : c = '<'
      · simp only [escapeLt, if_pos hc]
        intro hmem
        rcases List.mem_append.mp hmem with hl | hr
        · revert hl; decide
        · exact ih hr
      · simp only [escapeLt, if_neg hc]
        intro hmem
        rcases List.mem_cons.mp hmem with hl | hr
        · exact hc hl.symm
        · exact ih hr

/-! ### Shared concrete inputs for witnesses and counterexamples -/

/-- A well-formed instance of the static template the handler reads from
`build/index.html`: it carries each marker exactly once. -/
def sampleTemplate : List Char :=
  ("<html><head><title>t</title></head><body><div id=\"root\"></div></body></html>").data

/-- A render outcome signalling a client-side redirect to `url`. -/
def redirectRender (url : List Char) : RenderResult :=
  { contextUrl := some url, markup := [], modules := [], htmlAttributes := [],
    title := [], meta := [], styles := [] }

/-! ### The claims -/

/-- Claim C1: for every request, the state initializer sets the current-user
entry from the cookie set: when the `mywebsite` cookie is present the entry
is `setCurrentUser` of its value, when it is absent the entry is the explicit
logged-out value, and exactly one of the two branches applies. -/
theorem initCurrentUser_from_cookie (cookies : List (List Char × List Char)) :
    (∀ v, cookies.lookup authCookieName = some v →
      initCurrentUser cookies = setCurrentUser v) ∧
    (cookies.lookup authCookieName = none → initCurrentUser cookies = logoutUser) ∧
    ((∃ v, cookies.lookup authCookieName = some v ∧
        initCurrentUser cookies = setCurrentUser v) ∨
      (cookies.lookup authCookieName = none ∧ initCurrentUser cookies = logoutUser)) := by
  refine ⟨fun v hv => ?_, fun hn => ?_, ?_⟩
  · simp [initCurrentUser, hv]
  · simp [initCurrentUser, hn]
  · cases h : cookies.lookup authCookieName with
    | some v => exact Or.inl ⟨v, rfl, by simp [initCurrentUser, h]⟩
    | none => exact Or.inr ⟨rfl, by simp [initCurrentUser, h]⟩

/-- Witness for C1: a request carrying the auth cookie yields that user, one
without it yields the logged-out value. -/
theorem initCurrentUser_from_cookie_witness :
    initCurrentUser [(authCookieName, ("alice").data)] =
      setCurrentUser (("alice").data) ∧
    initCurrentUser [(("other").data, ("x").data)] = logoutUser :=
  ⟨(initCurrentUser_from_cookie _).1 _ (by rfl),
    (initCurrentUser_from_cookie _).2.1 (by rfl)⟩

/-- Claim C2: whenever the rendering pass reports a redirect target in its
context, the handler answers with status 302, a Location header equal to
exactly that target, and the fixed literal `redirect...` as payload — it
never assembles a document on this path (the response does not depend on the
template, the manifest or the state). -/
theorem handlSSR_redirect (cookies : List (List Char × List Char))
    (data : List Char) (r : RenderResult) (manifest : List (List Char × List Char))
    (stringify : CurrentUser → List Char) (url : List Char)
    (h : r.contextUrl = some url) :
    handlSSR cookies (Except.ok data) (Except.ok r) manifest stringify =
      { status := 302, location := some url, body := some (("redirect...").data) } := by
  simp [handlSSR, h]

/-- Witness for C2 at a concrete redirect render result. -/
theorem handlSSR_redirect_witness :
    handlSSR [] (Except.ok sampleTemplate) (Except.ok (redirectRender (("/login").data)))
        [] (fun _ => ("null").data) =
      { status := 302, location := some (("/login").data),
        body := some (("redirect...").data) } :=
  handlSSR_redirect [] sampleTemplate _ [] (fun _ => ("null").data) (("/login").data) rfl

/-- Claim C3: a failing template read and a failing rendering pass are both
caught at the top of the handler and turned into the bodiless not-found
response; no partial document is returned. -/
theorem handlSSR_failure_not_found (cookies : List (List Char × List Char))
    (manifest : List (List Char × List Char)) (stringify : CurrentUser → List Char) :
    (∀ render, handlSSR cookies (Except.error ()) render manifest stringify =
      notFoundResponse) ∧
    (∀ data, handlSSR cookies (Except.ok data) (Except.error ()) manifest stringify =
      notFoundResponse) ∧
    notFoundResponse = { status := 404, location := none, body := none } :=
  ⟨fun _ => rfl, fun _ => rfl, rfl⟩

/-- Claim C10: on the redirect branch the payload is always the fixed
non-empty literal `redirect...`, independent of the target and the request. -/
theorem handlSSR_redirect_body_fixed (cookies : List (List Char × List Char))
    (data : List Char) (r : RenderResult) (manifest : List (List Char × List Char))
    (stringify : CurrentUser → List Char) (url : List Char)
    (h : r.contextUrl = some url) :
    (handlSSR cookies (Except.ok data) (Except.ok r) manifest stringify).body =
      some (("redirect...").data) ∧ ("redirect...").data ≠ [] := by
  constructor
  · simp [handlSSR, h]
  · decide

/-- Witness for C10: two different redirect targets produce the same fixed
payload. -/
theorem handlSSR_redirect_body_fixed_witness :
    (handlSSR [] (Except.ok sampleTemplate) (Except.ok (redirectRender (("/a").data)))
        [] (fun _ => ("null").data)).body = some (("redirect...").data) ∧
    ("redirect...").data ≠ [] :=
  handlSSR_redirect_body_fixed [] sampleTemplate _ [] (fun _ => ("null").data)
    (("/a").data) rfl

/-- The serialized state embedded in an assembled document: the text between
the preloaded-state marker and the following script-close tag. -/
def embeddedState (doc : List Char) : Option (List Char) :=
  match firstSplit (("window.__PRELOADED_STATE__ = ").data) doc with
  | some (_, rest) =>
      match firstSplit (("</script>").data) rest with
      | some (es, _) => some es
      | none => none
  | none => none

/-- A `JSON.stringify` for the store state whose only entry is the
current-user value (JSON leaves `$` and `&` unescaped). -/
def stringifyUser : CurrentUser → List Char
  | CurrentUser.user v => ("\x7b\"u\":\"").data ++ v ++ ("\"\x7d").data
  | CurrentUser.loggedOut => ("\x7b\"u\":null\x7d").data

/-- A request whose auth cookie value is the substitution pattern. -/
def dollarCookies : List (List Char × List Char) :=
  [(authCookieName, ("$&").data)]

/-- A normal (non-redirecting) render outcome. -/
def plainRender : RenderResult :=
  { contextUrl := none, markup := ("Hi").data, modules := [], htmlAttributes := [],
    title := ("<p>T</p>").data, meta := [], styles := [] }

/-- Claim C4, evaluated at the failing input: the escape pass does remove
every `<` from the serialized state, but the handler then embeds the state
through a JavaScript string replacement, whose substitution patterns are
expanded — for the cookie value `$&` the embedded state gains the matched
root placeholder, so the script block of the assembled document carries a
literal `<` again, contradicting the claim. -/
theorem embeddedState_dollar_reintroduces_lt :
    '<' ∉ escapeLt (stringifyUser (initCurrentUser dollarCookies)) ∧
    ((handlSSR dollarCookies (Except.ok sampleTemplate) (Except.ok plainRender)
        [] stringifyUser).body.map
      (fun b => (embeddedState b).map (fun es => decide ('<' ∈ es)))) =
      some (some true) :=
  ⟨not_mem_escapeLt _, by rfl⟩

/-- Helper for C5: with pairwise distinct manifest keys (as JavaScript
object keys always are), the keys/filter/indexing pipeline of
`extractAssets` is the filter of the manifest entries themselves. -/
theorem extractAssets_eq_filter_map (chunks : List (List Char)) :
    ∀ assets : List (List Char × List Char), (objectKeys assets).Nodup →
    extractAssets assets chunks =
      (assets.filter (fun kv => chunks.contains (jsReplace dotJs [] kv.1))).map
        Prod.snd := by
  intro assets
  induction assets with
  | nil => intro _; rfl
  | cons kv rest ih =>
      obtain ⟨k, v⟩ := kv
      intro hnd
      have hnd' : k ∉ objectKeys rest ∧ (objectKeys rest).Nodup := by
        have : (k :: objectKeys rest).Nodup := by
          simpa [objectKeys] using hnd
        exact ⟨(List.nodup_cons.mp this).1, (List.nodup_cons.mp this).2⟩
      have hmapeq : ((objectKeys rest).filter
            (fun a => chunks.contains (jsReplace dotJs [] a))).map
            (objectGet ((k, v) :: rest)) =
          ((objectKeys rest).filter
            (fun a => chunks.contains (jsReplace dotJs [] a))).map (objectGet rest) := by
        apply List.map_congr_left
        intro a ha
        have hmem : a ∈ objectKeys rest := List.mem_of_mem_filter ha
        exact objectGet_cons_of_ne rest (fun he => hnd'.1 (he ▸ hmem))
      have ihu : ((objectKeys rest).filter
            (fun a => chunks.contains (jsReplace dotJs [] a))).map (objectGet rest) =
          (rest.filter (fun kv => chunks.contains (jsReplace dotJs [] kv.1))).map
            Prod.snd := ih hnd'.2
      by_cases hc : chunks.contains (jsReplace dotJs [] k)
      · have hfk : (k :: objectKeys rest).filter
              (fun a => chunks.contains (jsReplace dotJs [] a)) =
            k :: (objectKeys rest).filter
              (fun a => chunks.contains (jsReplace dotJs [] a)) :=
          List.filter_cons_of_pos hc
        have hfk' : (((k, v) :: rest).filter
              (fun kv => chunks.contains (jsReplace dotJs [] kv.1))) =
            (k, v) :: rest.filter
              (fun kv => chunks.contains (jsReplace dotJs [] kv.1)) :=
          List.filter_cons_of_pos hc
        have hget : objectGet ((k, v) :: rest) k = v := by
          simp [objectGet]
        show ((k :: objectKeys rest).filter
            (fun a => chunks.contains (jsReplace dotJs [] a))).map
            (objectGet ((k, v) :: rest)) = _
        rw [hfk, List.map_cons, hget, hmapeq, ihu, hfk', List.map_cons]
      · have hfk : (k :: objectKeys rest).filter
              (fun a => chunks.contains (jsReplace dotJs [] a)) =
            (objectKeys rest).filter
              (fun a => chunks.contains (jsReplace dotJs [] a)) :=
          List.filter_cons_of_neg hc
        have hfk' : (((k, v) :: rest).filter
              (fun kv => chunks.contains (jsReplace dotJs [] kv.1))) =
            rest.filter (fun kv => chunks.contains (jsReplace dotJs [] kv.1)) :=
          List.filter_cons_of_neg hc
        show ((k :: objectKeys rest).filter
            (fun a => chunks.contains (jsReplace dotJs [] a))).map
            (objectGet ((k, v) :: rest)) = _
        rw [hfk, hmapeq, ihu, hfk']

/-- Modelled from the claim's words, for comparison with the code: the
manifest key minus the fixed `.js` suffix (unchanged when the key does not
end in `.js`). -/
def stripDotJsSuffix (k : List Char) : List Char :=
  if dotJs <:+ k then k.take (k.length - 3) else k

/-- The selector the claim describes: an asset's path is returned iff its
manifest key minus the `.js` suffix is one of the touched modules, in
manifest order. -/
def claimedExtractAssets (assets : List (List Char × List Char))
    (chunks : List (List Char)) : List (List Char) :=
  (assets.filter (fun kv => chunks.contains (stripDotJsSuffix kv.1))).map Prod.snd

/-- Counterexample to claim C5 as stated: for the manifest entry `x.json`
and touched module `xon`, the code removes the first occurrence of `.js`
anywhere in the key (yielding `xon`, a match), while the claimed
suffix-based selector returns nothing. -/
theorem extractAssets_counterexample :
    extractAssets [((("x.json").data), (("/p").data))] [(("xon").data)] =
      [(("/p").data)] ∧
    claimedExtractAssets [((("x.json").data), (("/p").data))] [(("xon").data)] =
      [] :=
  ⟨rfl, rfl⟩

/-- Claim C5 as amended: an asset's file path is returned iff the manifest
key with the first occurrence of the substring `.js` removed (anywhere in
the key; the key is unchanged when `.js` does not occur) is one of the
touched module identifiers, and the result follows the manifest's key
iteration order. -/
theorem extractAssets_first_occurrence (assets : List (List Char × List Char))
    (chunks : List (List Char)) (hnd : (objectKeys assets).Nodup) :
    extractAssets assets chunks =
      (assets.filter (fun kv => chunks.contains (jsReplace dotJs [] kv.1))).map
        Prod.snd ∧
    ∀ v, (v ∈ extractAssets assets chunks ↔
      ∃ kv, kv ∈ assets ∧ kv.2 = v ∧ jsReplace dotJs [] kv.1 ∈ chunks) := by
  have h1 := extractAssets_eq_filter_map chunks assets hnd
  refine ⟨h1, fun v => ?_⟩
  rw [h1]
  simp only [List.mem_map, List.mem_filter]
  constructor
  · rintro ⟨kv, ⟨hmem, hcont⟩, hsnd⟩
    exact ⟨kv, hmem, hsnd, by simpa [List.contains] using hcont⟩
  · rintro ⟨kv, hmem, hsnd, hin⟩
    exact ⟨kv, ⟨hmem, by simpa [List.contains] using hin⟩, hsnd⟩

/-- Witness for the amended C5 at a two-entry manifest. -/
theorem extractAssets_first_occurrence_witness :
    extractAssets [((("a.js").data), (("/s/a.1.js").data)),
        ((("b.js").data), (("/s/b.1.js").data))] [(("b").data)] =
      ([((("a.js").data), (("/s/a.1.js").data)),
        ((("b.js").data), (("/s/b.1.js").data))].filter
          (fun kv => [(("b").data)].contains (jsReplace dotJs [] kv.1))).map
        Prod.snd :=
  (extractAssets_first_occurrence _ _ (by decide)).1

/-- The single-entry manifest of the claim's example. -/
def registManifest : List (List Char × List Char) :=
  [((("regist.js").data), (("/static/regist.abc123.js").data))]

/-- The script tag the claim expects, with the leading slash stripped. -/
def registTag : List Char :=
  ("<script type=\"text/javascript\" src=\"static/regist.abc123.js\"></script>").data

/-- Claim C6: with the manifest mapping `regist.js` to
`/static/regist.abc123.js` and a touched-module list containing `regist`,
the generated script-tag list is exactly the expected tag with the leading
slash of the path stripped. -/
theorem extraChunks_regist (modules : List (List Char))
    (h : ("regist").data ∈ modules) :
    extraChunks registManifest modules = [registTag] := by
  have hc : modules.contains (jsReplace dotJs [] (("regist.js").data)) = true :=
    List.elem_eq_true_of_mem h
  have hf : List.filter (fun asset => modules.contains (jsReplace dotJs [] asset))
        [(("regist.js").data)] =
      (("regist.js").data) :: List.filter
        (fun asset => modules.contains (jsReplace dotJs [] asset)) [] :=
    List.filter_cons_of_pos hc
  simp only [List.filter_nil] at hf
  show (((objectKeys registManifest).filter
      (fun asset => modules.contains (jsReplace dotJs [] asset))).map
      (fun k => objectGet registManifest k)).map scriptTagOf = [registTag]
  rw [show objectKeys registManifest = [(("regist.js").data)] from rfl, hf]
  rfl

/-- Witness for C6 at the touched-module list containing exactly `regist`. -/
theorem extraChunks_regist_witness :
    extraChunks registManifest [(("regist").data)] = [registTag] :=
  extraChunks_regist [(("regist").data)] (by decide)

/-- A fragment set with non-empty head metadata, as every Helmet render
produces. -/
def dupMetaFragments : Fragments :=
  { html := ("a").data, title := ("<t>").data, meta := ("M").data, body := ("B").data,
    scripts := [], styles := [], state := ("\x7b\x7d").data }

/-- Counterexample to claim C7 as stated: on a well-formed template, running
the assembly a second time with the same fragments inserts the head metadata
before the head-close marker again, so the output differs (here `M` becomes
`MM`). -/
theorem injectHTML_not_idempotent :
    injectHTML (injectHTML sampleTemplate dupMetaFragments) dupMetaFragments ≠
      injectHTML sampleTemplate dupMetaFragments := by
  decide

/-- Claim C7 as amended: assembly is idempotent only under restrictions —
when the meta, styles and scripts fragments are empty (otherwise the second
pass duplicates their insertion before the head-close and body-close
markers) and the once-assembled document no longer contains the bare
html-open marker, a title-open tag, or the root placeholder (the latter
requires a non-empty body, else the state script is duplicated). -/
theorem injectHTML_idempotent_restricted (d : List Char) (fr : Fragments)
    (hm : fr.meta = []) (hs : fr.styles = []) (hsc : fr.scripts = [])
    (h1 : ¬ htmlOpenTag <:+: injectHTML d fr)
    (h2 : ¬ titleOpenTag <:+: injectHTML d fr)
    (h4 : ¬ rootDivTag <:+: injectHTML d fr) :
    injectHTML (injectHTML d fr) fr = injectHTML d fr := by
  have e1 : step1 fr (injectHTML d fr) = injectHTML d fr :=
    jsReplace_of_no_occurrence _ h1
  have e2 : step2 fr (injectHTML d fr) = injectHTML d fr :=
    titleReplace_of_no_open _ h2
  have e3 : step3 fr (injectHTML d fr) = injectHTML d fr := by
    show jsReplace headCloseTag (fr.meta ++ fr.styles ++ headCloseTag) _ = _
    rw [hm, hs, List.nil_append, List.nil_append]
    exact jsReplace_self _ (by decide)
  have e4 : step4 fr (injectHTML d fr) = injectHTML d fr :=
    jsReplace_of_no_occurrence _ h4
  have e5 : step5 fr (injectHTML d fr) = injectHTML d fr := by
    show jsReplace bodyCloseTag (fr.scripts.flatten ++ bodyCloseTag) _ = _
    rw [hsc, List.flatten_nil, List.nil_append]
    exact jsReplace_self _ (by decide)
  show step5 fr (step4 fr (step3 fr (step2 fr (step1 fr (injectHTML d fr))))) =
    injectHTML d fr
  rw [e1, e2, e3, e4, e5]

/-- A fragment set meeting the restrictions of the amended C7. -/
def idemFragments : Fragments :=
  { html := ("lang=\"zh\"").data, title := ("<t>T</t>").data, meta := [],
    body := ("B").data, scripts := [], styles := [], state := ("\x7b\x7d").data }

/-- Witness for the amended C7 on the well-formed template. -/
theorem injectHTML_idempotent_restricted_witness :
    injectHTML (injectHTML sampleTemplate idemFragments) idemFragments =
      injectHTML sampleTemplate idemFragments :=
  injectHTML_idempotent_restricted sampleTemplate idemFragments rfl rfl rfl
    (by decide) (by decide) (by decide)

/-- Claim C9: the assembler is total, and a missing marker makes the
corresponding substitution a silent no-op: each step returns its input
unchanged when its marker is absent, and on a template whose pipeline input
lacks the exact root placeholder the assembled document is the one with the
body-and-state substitution skipped and every other substitution applied. -/
theorem injectHTML_missing_markers (d : List Char) (fr : Fragments) :
    (¬ htmlOpenTag <:+: d → step1 fr d = d) ∧
    (¬ titleOpenTag <:+: d → step2 fr d = d) ∧
    (¬ headCloseTag <:+: d → step3 fr d = d) ∧
    (¬ rootDivTag <:+: d → step4 fr d = d) ∧
    (¬ bodyCloseTag <:+: d → step5 fr d = d) ∧
    (¬ rootDivTag <:+: step3 fr (step2 fr (step1 fr d)) →
      injectHTML d fr = step5 fr (step3 fr (step2 fr (step1 fr d)))) := by
  refine ⟨fun h => jsReplace_of_no_occurrence _ h,
    fun h => titleReplace_of_no_open _ h,
    fun h => jsReplace_of_no_occurrence _ h,
    fun h => jsReplace_of_no_occurrence _ h,
    fun h => jsReplace_of_no_occurrence _ h,
    fun h => ?_⟩
  show step5 fr (step4 fr (step3 fr (step2 fr (step1 fr d)))) = _
  rw [show step4 fr (step3 fr (step2 fr (step1 fr d))) =
    step3 fr (step2 fr (step1 fr d)) from jsReplace_of_no_occurrence _ h]

/-- A template carrying every marker except the root placeholder. -/
def noRootTemplate : List Char :=
  ("<html><head><title>t</title></head><body></body></html>").data

/-- A plain fragment set for the C9 witness. -/
def noRootFragments : Fragments :=
  { html := ("x").data, title := ("<t>").data, meta := ("M").data,
    body := ("B").data, scripts := [(("S").data)], styles := ("Y").data,
    state := ("0").data }

/-- Witness for C9: a marker-free string is left unchanged by the first
step, and on the template without the root placeholder the document equals
the pipeline with the body-and-state substitution skipped. -/
theorem injectHTML_missing_markers_witness :
    step1 noRootFragments (("no-markers-here").data) = ("no-markers-here").data ∧
    injectHTML noRootTemplate noRootFragments =
      step5 noRootFragments (step3 noRootFragments
        (step2 noRootFragments (step1 noRootFragments noRootTemplate))) :=
  ⟨(injectHTML_missing_markers (("no-markers-here").data) noRootFragments).1
      (by decide),
    (injectHTML_missing_markers noRootTemplate noRootFragments).2.2.2.2.2
      (by decide)⟩

/-- Claim C8: the assembler performs its five substitutions in the source's
order and at the claimed positions.  The split hypotheses locate the first
occurrence of each marker in the respective intermediate document (and the
only title match), and the conclusions state each substitution exactly:
attributes are spliced into the opening html tag, the title fragment
replaces the matched title element, meta and styles land immediately before
the head-close marker, body and state replace the root placeholder, and the
joined script tags land immediately before the body-close marker.  The
fragments are assumed free of the `$` substitution patterns, which the
JavaScript replacement would expand. -/
theorem injectHTML_substitution_positions (fr : Fragments) (d : List Char)
    {a1 b1 a2 t2 b2 a3 b3 a4 b4 a5 b5 : List Char}
    (hh : '$' ∉ fr.html) (ht : '$' ∉ fr.title) (hm : '$' ∉ fr.meta)
    (hy : '$' ∉ fr.styles) (hb : '$' ∉ fr.body) (hst : '$' ∉ fr.state)
    (hscr : ∀ sc ∈ fr.scripts, '$' ∉ sc)
    (h1 : firstSplit htmlOpenTag d = some (a1, b1))
    (h2 : titleSplit (step1 fr d) = some (a2, t2, b2))
    (h2x : titleSplit b2 = none)
    (h3 : firstSplit headCloseTag (step2 fr (step1 fr d)) = some (a3, b3))
    (h4 : firstSplit rootDivTag (step3 fr (step2 fr (step1 fr d))) = some (a4, b4))
    (h5 : firstSplit bodyCloseTag (step4 fr (step3 fr (step2 fr (step1 fr d)))) =
      some (a5, b5)) :
    d = a1 ++ htmlOpenTag ++ b1 ∧
    step1 fr d = a1 ++ (("<html ").data ++ fr.html ++ (">").data) ++ b1 ∧
    step2 fr (step1 fr d) = a2 ++ fr.title ++ b2 ∧
    step2 fr (step1 fr d) = a3 ++ headCloseTag ++ b3 ∧
    step3 fr (step2 fr (step1 fr d)) =
      a3 ++ (fr.meta ++ fr.styles ++ headCloseTag) ++ b3 ∧
    step3 fr (step2 fr (step1 fr d)) = a4 ++ rootDivTag ++ b4 ∧
    step4 fr (step3 fr (step2 fr (step1 fr d))) =
      a4 ++ (stateOpen ++ fr.body ++ stateMid ++ fr.state ++ statePost) ++ b4 ∧
    step4 fr (step3 fr (step2 fr (step1 fr d))) = a5 ++ bodyCloseTag ++ b5 ∧
    injectHTML d fr = a5 ++ (fr.scripts.flatten ++ bodyCloseTag) ++ b5 := by
  have hr1 : '$' ∉ ("<html ").data ++ fr.html ++ (">").data := by
    simp only [List.mem_append, not_or]
    exact ⟨⟨by decide, hh⟩, by decide⟩
  have hr3 : '$' ∉ fr.meta ++ fr.styles ++ headCloseTag := by
    simp only [List.mem_append, not_or]
    exact ⟨⟨hm, hy⟩, by decide⟩
  have hr4 : '$' ∉ stateOpen ++ fr.body ++ stateMid ++ fr.state ++ statePost := by
    simp only [List.mem_append, not_or]
    exact ⟨⟨⟨⟨by decide, hb⟩, by decide⟩, hst⟩, by decide⟩
  have hflat : '$' ∉ fr.scripts.flatten := by
    intro hmem
    obtain ⟨l, hl, hc⟩ := List.mem_flatten.mp hmem
    exact hscr l hl hc
  have hr5 : '$' ∉ fr.scripts.flatten ++ bodyCloseTag := by
    simp only [List.mem_append, not_or]
    exact ⟨hflat, by decide⟩
  refine ⟨firstSplit_eq_append h1, jsReplace_eq_of_firstSplit h1 hr1,
    titleReplace_eq h2 h2x ht, firstSplit_eq_append h3,
    jsReplace_eq_of_firstSplit h3 hr3, firstSplit_eq_append h4,
    jsReplace_eq_of_firstSplit h4 hr4, firstSplit_eq_append h5,
    jsReplace_eq_of_firstSplit h5 hr5⟩

/-- The fragment set of the C8 witness: every fragment non-empty and
`$`-free. -/
def positionsFragments : Fragments :=
  { html := ("lang=\"zh\"").data, title := ("<ti>T</ti>").data, meta := ("<m/>").data,
    body := ("<p>B</p>").data, scripts := [(("<s1>").data), (("<s2>").data)],
    styles := ("<y/>").data, state := ("\x7b\"u\":null\x7d").data }

/-- Witness for C8 on the well-formed template: the meta and style fragments
are inserted immediately before the head-close marker of the intermediate
document. -/
theorem injectHTML_substitution_positions_witness :
    step3 positionsFragments (step2 positionsFragments
        (step1 positionsFragments sampleTemplate)) =
      ("<html lang=\"zh\"><head><ti>T</ti>").data ++
        (positionsFragments.meta ++ positionsFragments.styles ++ headCloseTag) ++
        ("<body><div id=\"root\"></div></body></html>").data :=
  (injectHTML_substitution_positions positionsFragments sampleTemplate
    (by decide) (by decide) (by decide) (by decide) (by decide) (by decide)
    (by decide) rfl rfl rfl rfl rfl rfl).2.2.2.2.1

end Zhuye
